import Mathlib

/-
Verification development for the OPC UA XML exporter
(asyncua/common/xmlexporter.py).  The Python source is shallowly
embedded below: each method of XmlExporter that the properties talk
about becomes a Lean function on explicit data, with the mutable
etree replaced by functional element construction and the mutable
dictionaries replaced by association lists with Python dict update
semantics.
-/

/-- Identity of a node or type: namespace index plus (numeric)
identifier.  The exported nodes relevant here use numeric identifiers,
so the identifier is modelled as a natural number. -/
structure NodeId where
  NamespaceIndex : Nat
  Identifier : Nat
deriving DecidableEq, Repr

/-- Browse name: a name paired with a namespace index. -/
structure QualifiedName where
  NamespaceIndex : Nat
  Name : String
deriving DecidableEq, Repr

/-- A reference edge as returned by node.get_references(): a
reference-type id, a target id (field NodeId in the source) and a
forward flag. -/
structure Reference where
  ReferenceTypeId : NodeId
  NodeId : NodeId
  IsForward : Bool
deriving DecidableEq, Repr

/-- The slice of an address-space node that the exporter reads for
namespace harvesting: its own id, its browse name and its references. -/
structure UaNode where
  nodeid : NodeId
  browseName : QualifiedName
  references : List Reference
deriving DecidableEq, Repr

/-- Modelled from the spec: the canonical string serialization form of
a NodeId (namespace-index prefix plus identifier-kind-specific body),
for numeric identifiers, as produced by ua.NodeId.to_string. -/
def nodeIdToString (n : NodeId) : String :=
  if n.NamespaceIndex = 0 then "i=" ++ toString n.Identifier
  else "ns=" ++ toString n.NamespaceIndex ++ ";i=" ++ toString n.Identifier

/-- Modelled from the spec: the string form of a QualifiedName,
namespace index prefix plus name, as produced by
ua.QualifiedName.to_string. -/
def qnameToString (q : QualifiedName) : String :=
  toString q.NamespaceIndex ++ ":" ++ q.Name

/-- Lookup in an association list, Python dict read semantics. -/
def dictLookup [DecidableEq κ] : List (κ × α) → κ → Option α
  | [], _ => none
  | (k0, v0) :: rest, k => if k = k0 then some v0 else dictLookup rest k

/-- Insertion into an association list with Python dict update
semantics: an existing key keeps its position and gets the new value,
a new key is appended at the end. -/
def dictInsert [DecidableEq κ] : List (κ × α) → κ → α → List (κ × α)
  | [], k, v => [(k, v)]
  | (k0, v0) :: rest, k, v =>
      if k0 = k then (k0, v) :: rest else (k0, v0) :: dictInsert rest k v

/-- An ElementTree element: tag, attributes in insertion order,
optional text, children in insertion order. -/
structure XmlEl where
  tag : String
  attrs : List (String × String)
  text : Option String
  children : List XmlEl

/-- A fresh element with the given tag. -/
def mkEl (tag : String) : XmlEl := ⟨tag, [], none, []⟩

/-- Et.SubElement semantics on the parent: append a fully built child. -/
def appendChild (el child : XmlEl) : XmlEl :=
  { el with children := el.children ++ [child] }

/-- XmlExporter._node_to_string: remap the namespace index through the
export index map when it is a key, on a copy of the NodeId, and return
the string form; an index that is not a key is left untouched. -/
def nodeToString (idxMap : List (Nat × Nat)) (n : NodeId) : String :=
  match dictLookup idxMap n.NamespaceIndex with
  | some j => nodeIdToString { n with NamespaceIndex := j }
  | none => nodeIdToString n

/-- XmlExporter._bname_to_string: same remapping for a browse name. -/
def bnameToString (idxMap : List (Nat × Nat)) (q : QualifiedName) : String :=
  match dictLookup idxMap q.NamespaceIndex with
  | some j => qnameToString { q with NamespaceIndex := j }
  | none => qnameToString q

/-- The loop of XmlExporter._make_idx_dict: walk the sorted index
list, stop (break) at the first index beyond the namespace table,
and assign export index position+1 to each index before that. -/
def makeIdxDictLoop : List Nat → Nat → List (Nat × Nat) → Nat → List (Nat × Nat)
  | [], _, d, _ => d
  | a :: rest, len, d, k =>
      if len ≤ a then d
      else makeIdxDictLoop rest len (dictInsert d a (k + 1)) (k + 1)

/-- XmlExporter._make_idx_dict: sort the harvested indices, start from
the dict holding 0 maps-to 0, and number the in-table indices in
ascending order. -/
def makeIdxDict (idxs : List Nat) (ns_array : List String) : List (Nat × Nat) :=
  makeIdxDictLoop (List.insertionSort (· ≤ ·) idxs) ns_array.length [(0, 0)] 0

/-- First index of a string in a list (Python list.index, guarded by a
membership test in the source). -/
def listIndexOf : List String → String → Option Nat
  | [], _ => none
  | s :: rest, u =>
      if u = s then some 0
      else match listIndexOf rest u with
        | some i => some (i + 1)
        | none => none

/-- XmlExporter._add_idxs_from_uris: for every requested uri present
in the namespace table, append its index unless already collected. -/
def addIdxsFromUris (idxs : List Nat) (uris ns_array : List String) : List Nat :=
  uris.foldl
    (fun acc uri =>
      match listIndexOf ns_array uri with
      | some i => if i ∈ acc then acc else acc ++ [i]
      | none => acc)
    idxs

/-- The per-node index collection of _get_ns_idxs_of_nodes: own
namespace index, browse-name namespace index, and the target id
namespace index of every reference, deduplicated (list(set(..))
modelled as order-preserving deduplication; only the resulting set
matters downstream). -/
def nodeIdxsOf (node : UaNode) : List Nat :=
  ([node.nodeid.NamespaceIndex, node.browseName.NamespaceIndex] ++
    node.references.map (fun r => r.NodeId.NamespaceIndex)).foldl
      (fun acc i => if i ∈ acc then acc else acc ++ [i]) []

/-- XmlExporter._get_ns_idxs_of_nodes: accumulate over all nodes,
skipping index 0 and indices already collected. -/
def getNsIdxsOfNodes (nodes : List UaNode) : List Nat :=
  nodes.foldl
    (fun idxs node =>
      (nodeIdxsOf node).foldl
        (fun acc i => if i ≠ 0 ∧ i ∉ acc then acc ++ [i] else acc) idxs)
    []

/-- A Python value as handled by the value codec: None, bool, int,
string, byte string, NodeId, GUID (kept as its string form), list, or
a structured value carrying its ua_types member descriptor list
(member name, declared member type name) and its member values. -/
inductive PyVal where
  | none
  | bool (b : Bool)
  | int (n : Int)
  | str (s : String)
  | bytes (bs : List Nat)
  | nodeid (n : NodeId)
  | guid (s : String)
  | list (xs : List PyVal)
  | struct (uaTypes : List (String × String)) (fields : List (String × PyVal))

/-- Python truthiness of a value, as used by the Boolean leaf branch. -/
def pyTruthy : PyVal → Bool
  | .none => false
  | .bool b => b
  | .int n => n ≠ 0
  | .str s => s ≠ ""
  | .bytes bs => bs ≠ []
  | .list xs => !xs.isEmpty
  | _ => true

/-- Python str() of the scalar values that reach the generic leaf
branch of _val_to_etree. -/
def pyStr : PyVal → String
  | .int n => toString n
  | .str s => s
  | .bool b => if b then "True" else "False"
  | .guid s => s
  | .nodeid n => nodeIdToString n
  | _ => ""

/-- val.to_string() in the NodeId leaf branch. -/
def pyNodeIdStr : PyVal → String
  | .nodeid n => nodeIdToString n
  | _ => ""

/-- getattr(val, name) for a structured value. -/
def pyGetattr : PyVal → String → PyVal
  | .struct _ fs, name => (dictLookup fs name).getD .none
  | _, _ => .none

/-- val.ua_types of a structured value. -/
def uaTypesOf : PyVal → List (String × String)
  | .struct ts _ => ts
  | _ => []

/-- Modelled from the spec: bytes.decode("utf-8") for the byte values
that reach the generic leaf branch (written verbatim as text); exact
only for single-byte code points, which is all the claims use. -/
def utf8Decode (bs : List Nat) : String :=
  String.mk (bs.map Char.ofNat)

/-- The base64 alphabet character of a 6-bit group
(A-Z, a-z, 0-9, plus, slash). -/
def b64CharOf (n : Nat) : Char :=
  if n < 26 then Char.ofNat (65 + n)
  else if n < 52 then Char.ofNat (71 + n)
  else if n < 62 then Char.ofNat (n - 4)
  else if n = 62 then '+' else '/'

/-- The 6-bit value of a base64 alphabet character. -/
def b64ValOf (c : Char) : Nat :=
  if 97 ≤ c.toNat then c.toNat - 71
  else if 65 ≤ c.toNat then c.toNat - 65
  else if 48 ≤ c.toNat then c.toNat + 4
  else if c = '+' then 62 else 63

/-- Standard base64 encoding of a byte sequence (base64.b64encode),
three bytes per four output characters, padded with '='. -/
def b64encode : List Nat → List Char
  | [] => []
  | [a] => [b64CharOf (a / 4), b64CharOf (a % 4 * 16), '=', '=']
  | [a, b] => [b64CharOf (a / 4), b64CharOf (a % 4 * 16 + b / 16),
               b64CharOf (b % 16 * 4), '=']
  | a :: b :: c :: rest =>
      b64CharOf (a / 4) :: b64CharOf (a % 4 * 16 + b / 16) ::
      b64CharOf (b % 16 * 4 + c / 64) :: b64CharOf (c % 64) :: b64encode rest

/-- Standard base64 decoding, inverse of b64encode. -/
def b64decode : List Char → List Nat
  | w :: x :: y :: z :: rest =>
      if z = '=' then
        if y = '=' then [b64ValOf w * 4 + b64ValOf x / 16]
        else [b64ValOf w * 4 + b64ValOf x / 16,
              b64ValOf x % 16 * 16 + b64ValOf y / 4]
      else
        (b64ValOf w * 4 + b64ValOf x / 16) ::
        (b64ValOf x % 16 * 16 + b64ValOf y / 4) ::
        (b64ValOf y % 4 * 64 + b64ValOf z) :: b64decode rest
  | _ => []

/-- Modelled from the spec: the slice of the static standard
id-to-name table ua.ObjectIdNames / o_ids.ObjectIdNames needed here
(all built-in scalar ids up to 21, the Enumeration marker, the
standard Argument type and a few standard reference types). -/
def objectIdNames : List (Nat × String) :=
  [(1, "Boolean"), (2, "SByte"), (3, "Byte"), (4, "Int16"), (5, "UInt16"),
   (6, "Int32"), (7, "UInt32"), (8, "Int64"), (9, "UInt64"), (10, "Float"),
   (11, "Double"), (12, "String"), (13, "DateTime"), (14, "Guid"),
   (15, "ByteString"), (16, "XmlElement"), (17, "NodeId"),
   (18, "ExpandedNodeId"), (19, "StatusCode"), (20, "QualifiedName"),
   (21, "LocalizedText"), (22, "Structure"), (29, "Enumeration"),
   (296, "Argument"), (35, "Organizes"), (40, "HasTypeDefinition"),
   (45, "HasSubtype"), (46, "HasProperty"), (47, "HasComponent")]

/-- Modelled from the spec: getattr(ua.ObjectIds, name), the numeric
id of a standard type name (inverse direction of the table above). -/
def objectIdsByName (s : String) : Nat :=
  ((objectIdNames.find? (fun p => p.2 = s)).map Prod.fst).getD 0

/-- The test-and-slice on the member type name in _extobj_to_etree
(vtype.startswith("ListOf") followed by vtype[6:]), written on the
character list so that it evaluates: strip a leading "ListOf". -/
def stripListOf (s : String) : String :=
  match s.data with
  | 'L' :: 'i' :: 's' :: 't' :: 'O' :: 'f' :: rest => String.mk rest
  | _ => s

/-- The four mutually recursive methods of the value codec
(_value_to_etree, _val_to_etree, member_to_etree, _extobj_to_etree),
built together by recursion on a fuel bound on the nesting depth so
that each level calls the previous one; at fuel 0 every function
returns its element unchanged. -/
def codecStep (res : NodeId → NodeId) :
    Nat →
      (XmlEl → String → NodeId → PyVal → XmlEl) ×
      (XmlEl → NodeId → PyVal → XmlEl) ×
      (XmlEl → String → NodeId → PyVal → XmlEl) ×
      (XmlEl → String → NodeId → PyVal → XmlEl)
  | 0 =>
    (fun el _ _ _ => el, fun el _ _ => el, fun el _ _ _ => el,
     fun el _ _ _ => el)
  | k + 1 =>
    ( -- _value_to_etree: a None value emits nothing; an array emits a
     -- ListOf wrapper chosen from the declared type and recurses per
     -- element; a scalar resolves its base type through the external
     -- get_base_data_type collaborator (the res parameter), treats
     -- Enumeration as Int32, and either emits a built-in leaf or
     -- falls through to the extension-object encoding
     fun el type_name dtype val =>
      match val with
      | .none => el
      | .list xs =>
          let elname :=
            if dtype.NamespaceIndex = 0 ∧ dtype.Identifier ≤ 21 then
              "uax:ListOf" ++ type_name
            else "uax:ListOfExtensionObject"
          appendChild el
            (xs.foldl
              (fun acc nval => (codecStep res k).1 acc type_name dtype nval)
              (mkEl elname))
      | v =>
          let dtype_base0 := res dtype
          -- the Enumeration marker resolves to Int32 (its display name
          -- rewrite in the source is shadowed by the built-in branch)
          let dtype_base :=
            if dtype_base0 = NodeId.mk 0 29 then NodeId.mk 0 6 else dtype_base0
          if dtype_base.NamespaceIndex = 0 ∧ dtype_base.Identifier ≤ 21 then
            let tn := (dictLookup objectIdNames dtype_base.Identifier).getD ""
            appendChild el
              ((codecStep res k).2.1 (mkEl ("uax:" ++ tn)) dtype_base v)
          else
            (codecStep res k).2.2.2 el type_name dtype v,
     -- _val_to_etree: per-built-in leaf formatting, dispatched on the
     -- declared type id (NodeId 17, Guid 14, Boolean 1, ByteString 15),
     -- then on the shape of the value
     fun el dtype val =>
      if dtype = NodeId.mk 0 17 then
        appendChild el { mkEl "uax:Identifier" with text := some (pyNodeIdStr val) }
      else if dtype = NodeId.mk 0 14 then
        appendChild el { mkEl "uax:String" with text := some (pyStr val) }
      else if dtype = NodeId.mk 0 1 then
        { el with text := some (if pyTruthy val then "true" else "false") }
      else if dtype = NodeId.mk 0 15 then
        let bs := match val with
          | .none => []
          | .bytes l => l
          | _ => []
        { el with text := some (String.mk (b64encode bs)) }
      else
        match val with
        | .struct ts fs =>
            ts.foldl
              (fun acc p =>
                (codecStep res k).2.2.1 acc p.1
                  (NodeId.mk 0 (objectIdsByName p.2))
                  (pyGetattr (.struct ts fs) p.1))
              el
        | .bytes l => { el with text := some (utf8Decode l) }
        | .none => el
        | v => { el with text := some (pyStr v) },
     -- member_to_etree: one member element named after the field; a
     -- list member recurses through _value_to_etree per item, a scalar
     -- member through _val_to_etree
     fun el name dtype val =>
      let member0 := mkEl ("uax:" ++ name)
      let member :=
        match val with
        | .list xs =>
            xs.foldl
              (fun acc v =>
                (codecStep res k).1 acc
                  ((dictLookup objectIdNames dtype.Identifier).getD "") dtype v)
              member0
        | v => (codecStep res k).2.1 member0 dtype v
      appendChild el member,
     -- _extobj_to_etree: ExtensionObject wrapper with TypeId and Body,
     -- then one member per entry of val.ua_types in declared order,
     -- stripping a ListOf marker from the member type name; the static
     -- _get_member_order helper is NOT called here (the call in the
     -- source is commented out)
     fun val_el name dtype val =>
      let struct_el :=
        (uaTypesOf val).foldl
          (fun acc p =>
            let vt := stripListOf p.2
            (codecStep res k).2.2.1 acc p.1 (NodeId.mk 0 (objectIdsByName vt))
              (pyGetattr val p.1))
          (mkEl ("uax:" ++ name))
      appendChild val_el
        ⟨"uax:ExtensionObject", [], Option.none,
          [⟨"uax:TypeId", [], Option.none,
            [⟨"uax:Identifier", [], some (nodeIdToString dtype), []⟩]⟩,
           ⟨"uax:Body", [], Option.none, [struct_el]⟩]⟩)

/-- XmlExporter._value_to_etree at a given fuel. -/
def valueToEtree (res : NodeId → NodeId) (fuel : Nat) :
    XmlEl → String → NodeId → PyVal → XmlEl :=
  (codecStep res fuel).1

/-- XmlExporter._val_to_etree at a given fuel. -/
def valToEtree (res : NodeId → NodeId) (fuel : Nat) :
    XmlEl → NodeId → PyVal → XmlEl :=
  (codecStep res fuel).2.1

/-- XmlExporter.member_to_etree at a given fuel. -/
def memberToEtree (res : NodeId → NodeId) (fuel : Nat) :
    XmlEl → String → NodeId → PyVal → XmlEl :=
  (codecStep res fuel).2.2.1

/-- XmlExporter._extobj_to_etree at a given fuel. -/
def extobjToEtree (res : NodeId → NodeId) (fuel : Nat) :
    XmlEl → String → NodeId → PyVal → XmlEl :=
  (codecStep res fuel).2.2.2

/-- XmlExporter.extobj_ordered_elements: the static table forcing a
field order for specific well-known structured types; its only entry
is the standard Argument type (id 296). -/
def extobjOrderedElements : List (NodeId × List String) :=
  [(NodeId.mk 0 296,
    ["Name", "DataType", "ValueRank", "ArrayDimensions", "Description"])]

/-- Whether a structured value has a member of the given name. -/
def hasMember (val : PyVal) (name : String) : Bool :=
  (uaTypesOf val).any (fun p => p.1 = name)

/-- Whether getattr(val, name) is None. -/
def memberIsNone (val : PyVal) (name : String) : Bool :=
  match pyGetattr val name with
  | .none => true
  | _ => false

/-- XmlExporter._get_member_order: the table order restricted to the
members the value declares and whose value is not None, for types in
the static table; the declared member names otherwise. -/
def getMemberOrder (dtype : NodeId) (val : PyVal) : List String :=
  match dictLookup extobjOrderedElements dtype with
  | Option.none => (uaTypesOf val).map Prod.fst
  | some order =>
      order.filter (fun name => hasMember val name ∧ ¬ memberIsNone val name)

/-- Modelled from the spec: the ordering of ua.NodeId used when the
alias keys are sorted, lexicographic on namespace index then
identifier. -/
def nodeIdLe (a b : NodeId) : Prop :=
  a.NamespaceIndex < b.NamespaceIndex ∨
    (a.NamespaceIndex = b.NamespaceIndex ∧ a.Identifier ≤ b.Identifier)

instance : DecidableRel nodeIdLe := fun a b => by
  unfold nodeIdLe; infer_instance

instance : IsTotal NodeId nodeIdLe :=
  ⟨fun a b => by unfold nodeIdLe; omega⟩

instance : IsTrans NodeId nodeIdLe :=
  ⟨fun a b c hab hbc => by
    unfold nodeIdLe at hab hbc ⊢; omega⟩

/-- XmlExporter._add_alias_els: sort the registered NodeIds and emit
one Alias element per key, attribute Alias = registered name, text =
the (unremapped) NodeId string. -/
def addAliasEls (aliases : List (NodeId × String)) : XmlEl :=
  ⟨"Aliases", [], Option.none,
    (List.insertionSort nodeIdLe (aliases.map Prod.fst)).map
      (fun n =>
        ⟨"Alias", [("Alias", (dictLookup aliases n).getD "")],
          some (nodeIdToString n), []⟩)⟩

/-- The per-reference name choice of _add_ref_els: the standard name
when the identifier is a key of the static table, else the raw
(unremapped) string form of the reference-type NodeId. -/
def refNameOf (ref : Reference) : String :=
  match dictLookup objectIdNames ref.ReferenceTypeId.Identifier with
  | some nm => nm
  | Option.none => nodeIdToString ref.ReferenceTypeId

/-- The Reference element built by _add_ref_els for one edge:
ReferenceType attribute, IsForward="false" only for inverse edges,
text = remapped target NodeId string. -/
def refElOf (idxMap : List (Nat × Nat)) (ref : Reference) : XmlEl :=
  ⟨"Reference",
    [("ReferenceType", refNameOf ref)] ++
      (if ref.IsForward then [] else [("IsForward", "false")]),
    some (nodeToString idxMap ref.NodeId), []⟩

/-- XmlExporter._add_ref_els: appends a References child holding one
Reference element per edge to the parent element, and registers the
chosen name as an alias of the reference-type id for every edge. -/
def addRefEls (aliases : List (NodeId × String)) (idxMap : List (Nat × Nat))
    (parent_el : XmlEl) (refs : List Reference) :
    XmlEl × List (NodeId × String) :=
  let (refs_el, aliases2) :=
    refs.foldl
      (fun (st : XmlEl × List (NodeId × String)) ref =>
        (appendChild st.1 (refElOf idxMap ref),
         dictInsert st.2 ref.ReferenceTypeId (refNameOf ref)))
      (mkEl "References", aliases)
  (appendChild parent_el refs_el, aliases2)

/-- One member of a ua.StructureDefinition. -/
structure StructureField where
  Name : String
  DataType : NodeId
  ValueRank : Int
  ArrayDimensions : List Nat
  IsOptional : Bool
deriving DecidableEq, Repr

/-- The Field element built for one structure-definition member:
Name and Datatype always, ValueRank only when not -1, ArrayDimensions
only when non-empty, IsOptional="true" only when optional. -/
def structureFieldEl (field : StructureField) : XmlEl :=
  ⟨"Field",
    [("Name", field.Name), ("Datatype", nodeIdToString field.DataType)] ++
      (if field.ValueRank ≠ -1 then [("ValueRank", toString field.ValueRank)]
       else []) ++
      (if field.ArrayDimensions ≠ [] then
        [("ArrayDimensions",
          String.intercalate ", " (field.ArrayDimensions.map toString))]
       else []) ++
      (if field.IsOptional then [("IsOptional", "true")] else []),
    Option.none, []⟩

/-- XmlExporter._structure_fields_to_etree: append one Field child to
the Definition element per member of the structure definition. -/
def structureFieldsToEtree (sdef_el : XmlEl) (fields : List StructureField) :
    XmlEl :=
  fields.foldl (fun el field => appendChild el (structureFieldEl field)) sdef_el

/-- The Definition element built by add_etree_datatype for a DataType
node carrying a structure definition: Name attribute from the browse
name, then the Field children. -/
def datatypeDefinitionEl (bname : QualifiedName) (fields : List StructureField) :
    XmlEl :=
  structureFieldsToEtree ⟨"Definition", [("Name", bname.Name)], Option.none, []⟩
    fields

/-- Follows the claim wording of C2 (refinement reference, not the
source): the claimed harvest set collects, per node, the namespace
index of the NodeId, of the browse name, and of every reference's
reference-type id AND target id, excluding 0, without duplicates. -/
def claimedHarvestIdxs (nodes : List UaNode) : List Nat :=
  (nodes.flatMap (fun nd =>
    [nd.nodeid.NamespaceIndex, nd.browseName.NamespaceIndex] ++
      nd.references.flatMap (fun r =>
        [r.ReferenceTypeId.NamespaceIndex, r.NodeId.NamespaceIndex]))).foldl
    (fun acc i => if i ≠ 0 ∧ i ∉ acc then acc ++ [i] else acc) []

lemma dictLookup_eq_none_iff [DecidableEq κ] (d : List (κ × α)) (k : κ) :
    dictLookup d k = none ↔ k ∉ d.map Prod.fst := by
  induction d with
  | nil => simp [dictLookup]
  | cons p rest ih =>
    obtain ⟨k0, v0⟩ := p
    by_cases h : k = k0
    · subst h; simp [dictLookup]
    · simp [dictLookup, h, ih, Ne.symm h]

lemma dictLookup_isSome_iff [DecidableEq κ] (d : List (κ × α)) (k : κ) :
    (dictLookup d k).isSome = true ↔ k ∈ d.map Prod.fst := by
  rw [← not_iff_not, ← dictLookup_eq_none_iff (d := d) (k := k)]
  cases dictLookup d k <;> simp

lemma dictLookup_dictInsert_self [DecidableEq κ] (d : List (κ × α)) (k : κ)
    (v : α) : dictLookup (dictInsert d k v) k = some v := by
  induction d with
  | nil => simp [dictInsert, dictLookup]
  | cons p rest ih =>
    obtain ⟨k0, v0⟩ := p
    by_cases h : k0 = k
    · subst h; simp [dictInsert, dictLookup]
    · simp [dictInsert, dictLookup, h, Ne.symm h, ih]

lemma dictLookup_dictInsert_ne [DecidableEq κ] (d : List (κ × α)) (k k' : κ)
    (v : α) (h : k ≠ k') : dictLookup (dictInsert d k' v) k = dictLookup d k := by
  induction d with
  | nil => simp [dictInsert, dictLookup, h]
  | cons p rest ih =>
    obtain ⟨k0, v0⟩ := p
    by_cases h0 : k0 = k'
    · subst h0; simp [dictInsert, dictLookup, h, ih]
    · simp only [dictInsert, if_neg h0]
      by_cases hk : k = k0
      · subst hk; simp [dictLookup]
      · simp [dictLookup, hk, ih]

lemma keys_dictInsert [DecidableEq κ] (d : List (κ × α)) (k : κ) (v : α) :
    (dictInsert d k v).map Prod.fst =
      if k ∈ d.map Prod.fst then d.map Prod.fst else d.map Prod.fst ++ [k] := by
  induction d with
  | nil => simp [dictInsert]
  | cons p rest ih =>
    obtain ⟨k0, v0⟩ := p
    by_cases h : k0 = k
    · subst h; simp [dictInsert]
    · simp only [dictInsert, if_neg h, List.map_cons, ih]
      by_cases hm : k ∈ rest.map Prod.fst
      · simp [hm, Ne.symm h]
      · simp [hm, Ne.symm h]

lemma dictInsert_of_not_mem [DecidableEq κ] (d : List (κ × α)) (k : κ) (v : α)
    (h : k ∉ d.map Prod.fst) : dictInsert d k v = d ++ [(k, v)] := by
  induction d with
  | nil => simp [dictInsert]
  | cons p rest ih =>
    obtain ⟨k0, v0⟩ := p
    simp only [List.map_cons, List.mem_cons, not_or] at h
    simp [dictInsert, Ne.symm h.1, ih h.2]

lemma dictInsert_of_mem_same [DecidableEq κ] (d : List (κ × α)) (k : κ) (v : α)
    (hnd : (d.map Prod.fst).Nodup) (h : (k, v) ∈ d) : dictInsert d k v = d := by
  induction d with
  | nil => simp at h
  | cons p rest ih =>
    obtain ⟨k0, v0⟩ := p
    simp only [List.map_cons, List.nodup_cons] at hnd
    rcases List.mem_cons.mp h with h1 | h1
    · obtain ⟨hk, hv⟩ := Prod.mk.injEq .. ▸ h1
      simp [dictInsert, hk.symm, hv]
    · have hk0 : k0 ≠ k := by
        rintro rfl
        exact hnd.1 (List.mem_map.mpr ⟨(k0, v), h1, rfl⟩)
      simp [dictInsert, hk0, ih hnd.2 h1]

lemma makeIdxDictLoop_no_break (l : List Nat) (len : Nat) :
    ∀ (d : List (Nat × Nat)) (k : Nat), (∀ a ∈ l, a < len) →
    (∀ a ∈ l, a ∉ d.map Prod.fst) → l.Nodup →
    makeIdxDictLoop l len d k =
      d ++ (List.enumFrom (k + 1) l).map (fun p => (p.2, p.1)) := by
  induction l with
  | nil => intro d k _ _ _; simp [makeIdxDictLoop]
  | cons a rest ih =>
    intro d k hlt hnotin hnd
    have ha : a < len := hlt a (by simp)
    rw [makeIdxDictLoop, if_neg (by omega)]
    rw [dictInsert_of_not_mem d a (k + 1) (hnotin a (by simp))]
    rw [ih (d ++ [(a, k + 1)]) (k + 1) (fun b hb => hlt b (by simp [hb]))
      (fun b hb => by
        simp only [List.map_append, List.mem_append, List.map_cons, not_or]
        refine ⟨hnotin b (by simp [hb]), ?_⟩
        have : b ≠ a := fun h => (List.nodup_cons.mp hnd).1 (h ▸ hb)
        simp [this])
      (List.nodup_cons.mp hnd).2]
    simp [List.enumFrom]

lemma mem_keys_makeIdxDictLoop (l : List Nat) (len : Nat) :
    ∀ (d : List (Nat × Nat)) (k a : Nat),
    a ∈ (makeIdxDictLoop l len d k).map Prod.fst →
    a ∈ d.map Prod.fst ∨ (a ∈ l ∧ a < len) := by
  induction l with
  | nil => intro d k a h; rw [makeIdxDictLoop] at h; exact Or.inl h
  | cons b rest ih =>
    intro d k a h
    rw [makeIdxDictLoop] at h
    by_cases hb : len ≤ b
    · rw [if_pos hb] at h; exact Or.inl h
    · rw [if_neg hb] at h
      rcases ih _ _ _ h with h1 | h1
      · rw [keys_dictInsert] at h1
        by_cases hm : b ∈ d.map Prod.fst
        · simp only [if_pos hm] at h1; exact Or.inl h1
        · simp only [if_neg hm, List.mem_append, List.mem_singleton] at h1
          rcases h1 with h1 | h1
          · exact Or.inl h1
          · exact Or.inr ⟨by simp [h1], by omega⟩
      · exact Or.inr ⟨by simp [h1.1], h1.2⟩

lemma keys_makeIdxDictLoop_mono (l : List Nat) (len : Nat) :
    ∀ (d : List (Nat × Nat)) (k a : Nat), a ∈ d.map Prod.fst →
    a ∈ (makeIdxDictLoop l len d k).map Prod.fst := by
  induction l with
  | nil => intro d k a h; simpa [makeIdxDictLoop] using h
  | cons b rest ih =>
    intro d k a h
    rw [makeIdxDictLoop]
    by_cases hb : len ≤ b
    · rwa [if_pos hb]
    · rw [if_neg hb]
      refine ih _ _ _ ?_
      rw [keys_dictInsert]
      by_cases hm : b ∈ d.map Prod.fst <;> simp [hm, h]

lemma mem_keys_makeIdxDictLoop_of_lt (l : List Nat) (len : Nat) :
    ∀ (d : List (Nat × Nat)) (k i : Nat), List.Sorted (· ≤ ·) l → i ∈ l →
    i < len → i ∈ (makeIdxDictLoop l len d k).map Prod.fst := by
  induction l with
  | nil => intro d k i _ h; simp at h
  | cons b rest ih =>
    intro d k i hs hi hlt
    have hble : b ≤ i := by
      rcases List.mem_cons.mp hi with h | h
      · omega
      · exact (List.sorted_cons.mp hs).1 i h
    rw [makeIdxDictLoop, if_neg (by omega)]
    rcases List.mem_cons.mp hi with h | h
    · subst h
      refine keys_makeIdxDictLoop_mono rest len _ _ _ ?_
      rw [keys_dictInsert]
      by_cases hm : i ∈ d.map Prod.fst <;> simp [hm]
    · exact ih _ _ _ (List.sorted_cons.mp hs).2 h hlt

/-- C4 (counterexample): when the requested URIs contain the URI at
namespace-table index 0, _add_idxs_from_uris appends index 0 and
_make_idx_dict then assigns 0 the export index 1, so the map does not
send 0 to 0 as the claim states. -/
theorem c4_counterexample :
    addIdxsFromUris [] ["u0"] ["u0"] = [0]
    ∧ dictLookup (makeIdxDict (addIdxsFromUris [] ["u0"] ["u0"]) ["u0"]) 0 =
        some 1 := by
  exact ⟨rfl, rfl⟩

/-- C4 (amended): provided every harvested index is non-zero and lies
inside the namespace table, the export index map built by
_make_idx_dict has key list 0 followed by the harvested indices in
ascending order, value list 0..N, no duplicate keys and ascending
keys: it maps 0 to 0 and is a bijection from the harvested indices
plus 0 onto 0..N assigned in ascending source-index order. -/
theorem c4_make_idx_dict_amended (idxs : List Nat) (ns_array : List String)
    (h1 : ∀ i ∈ idxs, 0 < i ∧ i < ns_array.length) (h2 : idxs.Nodup) :
    (makeIdxDict idxs ns_array).map Prod.fst =
        0 :: List.insertionSort (· ≤ ·) idxs
    ∧ (makeIdxDict idxs ns_array).map Prod.snd = List.range (idxs.length + 1)
    ∧ ((makeIdxDict idxs ns_array).map Prod.fst).Nodup
    ∧ List.Sorted (· ≤ ·) ((makeIdxDict idxs ns_array).map Prod.fst) := by
  have hperm := List.perm_insertionSort (· ≤ ·) idxs
  have hmem : ∀ a, a ∈ List.insertionSort (· ≤ ·) idxs ↔ a ∈ idxs :=
    fun a => hperm.mem_iff
  have hkey : makeIdxDict idxs ns_array =
      (0, 0) :: (List.enumFrom 1 (List.insertionSort (· ≤ ·) idxs)).map
        (fun p => (p.2, p.1)) := by
    unfold makeIdxDict
    rw [makeIdxDictLoop_no_break _ _ _ _
      (fun a ha => (h1 a ((hmem a).mp ha)).2)
      (fun a ha => by
        have := (h1 a ((hmem a).mp ha)).1
        simp only [List.map_cons, List.map_nil, List.mem_singleton]
        omega)
      (hperm.nodup_iff.mpr h2)]
    simp
  have hfst : (makeIdxDict idxs ns_array).map Prod.fst =
      0 :: List.insertionSort (· ≤ ·) idxs := by
    rw [hkey]
    simp only [List.map_cons, List.map_map]
    congr 1
    have : (Prod.fst ∘ fun p : Nat × Nat => (p.2, p.1)) = Prod.snd := rfl
    rw [this, List.enumFrom_map_snd]
  refine ⟨hfst, ?_, ?_, ?_⟩
  · rw [hkey]
    simp only [List.map_cons, List.map_map]
    have : (Prod.snd ∘ fun p : Nat × Nat => (p.2, p.1)) = Prod.fst := rfl
    rw [this, List.enumFrom_map_fst, List.range_eq_range', List.range'_succ,
      hperm.length_eq]
  · rw [hfst, List.nodup_cons]
    refine ⟨fun h => ?_, hperm.nodup_iff.mpr h2⟩
    have := (h1 0 ((hmem 0).mp h)).1
    omega
  · rw [hfst, List.sorted_cons]
    exact ⟨fun b _ => Nat.zero_le b, List.sorted_insertionSort _ _⟩

/-- Witness for c4_make_idx_dict_amended at idxs = [3, 1] over a
four-entry namespace table. -/
theorem c4_make_idx_dict_amended_witness :
    ((∀ i ∈ [3, 1], 0 < i ∧ i < (["a", "b", "c", "d"] : List String).length)
      ∧ ([3, 1] : List Nat).Nodup)
    ∧ ((makeIdxDict [3, 1] ["a", "b", "c", "d"]).map Prod.fst =
          0 :: List.insertionSort (· ≤ ·) [3, 1]
        ∧ (makeIdxDict [3, 1] ["a", "b", "c", "d"]).map Prod.snd =
            List.range (([3, 1] : List Nat).length + 1)
        ∧ ((makeIdxDict [3, 1] ["a", "b", "c", "d"]).map Prod.fst).Nodup
        ∧ List.Sorted (· ≤ ·)
            ((makeIdxDict [3, 1] ["a", "b", "c", "d"]).map Prod.fst)) :=
  ⟨⟨by decide, by decide⟩,
    c4_make_idx_dict_amended [3, 1] ["a", "b", "c", "d"] (by decide) (by decide)⟩

/-- C9: a harvested (hence non-zero) namespace index at or beyond the
namespace-table length is silently excluded from the export index map
(building the map is total, so nothing is raised), while every
in-range harvested index is mapped. -/
theorem c9_dangling_index_dropped (idxs : List Nat) (ns_array : List String)
    (i : Nat) (hi : i ∈ idxs) (h0 : i ≠ 0) :
    (ns_array.length ≤ i → dictLookup (makeIdxDict idxs ns_array) i = none)
    ∧ (i < ns_array.length →
        (dictLookup (makeIdxDict idxs ns_array) i).isSome = true) := by
  constructor
  · intro hlen
    rw [dictLookup_eq_none_iff]
    intro hmemk
    unfold makeIdxDict at hmemk
    rcases mem_keys_makeIdxDictLoop _ _ _ _ _ hmemk with h | h
    · simp only [List.map_cons, List.map_nil, List.mem_singleton] at h
      exact h0 h
    · omega
  · intro hlt
    rw [dictLookup_isSome_iff]
    unfold makeIdxDict
    exact mem_keys_makeIdxDictLoop_of_lt _ _ _ _ _
      (List.sorted_insertionSort _ _)
      ((List.perm_insertionSort _ idxs).mem_iff.mpr hi) hlt

/-- Witness for c9_dangling_index_dropped: over a three-entry table,
harvested index 7 is dropped and harvested index 1 is mapped. -/
theorem c9_dangling_index_dropped_witness :
    ((7 ∈ [1, 7] ∧ (7 : Nat) ≠ 0)
      ∧ dictLookup (makeIdxDict [1, 7] ["a", "b", "c"]) 7 = none)
    ∧ ((1 ∈ [1, 7] ∧ (1 : Nat) ≠ 0)
      ∧ (dictLookup (makeIdxDict [1, 7] ["a", "b", "c"]) 1).isSome = true) :=
  ⟨⟨⟨by decide, by decide⟩,
    (c9_dangling_index_dropped [1, 7] ["a", "b", "c"] 7 (by decide)
      (by decide)).1 (by decide)⟩,
   ⟨⟨by decide, by decide⟩,
    (c9_dangling_index_dropped [1, 7] ["a", "b", "c"] 1 (by decide)
      (by decide)).2 (by decide)⟩⟩

lemma mem_dedupFold (l : List Nat) :
    ∀ (acc : List Nat) (i : Nat),
      i ∈ l.foldl (fun acc i => if i ∈ acc then acc else acc ++ [i]) acc ↔
        i ∈ acc ∨ i ∈ l := by
  induction l with
  | nil => intro acc i; simp
  | cons a rest ih =>
    intro acc i
    simp only [List.foldl_cons]
    rw [ih]
    by_cases h : a ∈ acc
    · rw [if_pos h]
      simp only [List.mem_cons]
      constructor
      · rintro (h1 | h1)
        · exact Or.inl h1
        · exact Or.inr (Or.inr h1)
      · rintro (h1 | h1 | h1)
        · exact Or.inl h1
        · exact Or.inl (h1 ▸ h)
        · exact Or.inr h1
    · rw [if_neg h]
      simp only [List.mem_append, List.mem_singleton, List.mem_cons]
      tauto

lemma mem_nsAddFold (l : List Nat) :
    ∀ (acc : List Nat) (i : Nat),
      i ∈ l.foldl (fun acc i => if i ≠ 0 ∧ i ∉ acc then acc ++ [i] else acc)
          acc ↔
        i ∈ acc ∨ (i ∈ l ∧ i ≠ 0) := by
  induction l with
  | nil => intro acc i; simp
  | cons a rest ih =>
    intro acc i
    simp only [List.foldl_cons]
    rw [ih]
    by_cases h : a ≠ 0 ∧ a ∉ acc
    · rw [if_pos h]
      obtain ⟨ha0, hana⟩ := h
      simp only [List.mem_append, List.mem_cons, List.not_mem_nil, or_false]
      constructor
      · rintro ((h1 | h1) | h1)
        · exact Or.inl h1
        · exact Or.inr ⟨Or.inl h1, h1 ▸ ha0⟩
        · exact Or.inr ⟨Or.inr h1.1, h1.2⟩
      · rintro (h1 | ⟨h1 | h1, h2⟩)
        · exact Or.inl (Or.inl h1)
        · exact Or.inl (Or.inr h1)
        · exact Or.inr ⟨h1, h2⟩
    · rw [if_neg h]
      push_neg at h
      simp only [List.mem_cons]
      constructor
      · rintro (h1 | h1)
        · exact Or.inl h1
        · exact Or.inr ⟨Or.inr h1.1, h1.2⟩
      · rintro (h1 | ⟨h1 | h1, h2⟩)
        · exact Or.inl h1
        · exact Or.inl (h1 ▸ h (h1 ▸ h2))
        · exact Or.inr ⟨h1, h2⟩

lemma nodup_nsAddFold (l : List Nat) :
    ∀ acc : List Nat, acc.Nodup →
      (l.foldl (fun acc i => if i ≠ 0 ∧ i ∉ acc then acc ++ [i] else acc)
          acc).Nodup := by
  induction l with
  | nil => intro acc h; simpa using h
  | cons a rest ih =>
    intro acc h
    simp only [List.foldl_cons]
    by_cases ha : a ≠ 0 ∧ a ∉ acc
    · rw [if_pos ha]
      refine ih _ ?_
      simp [List.nodup_append, h, List.disjoint_singleton, ha.2]
    · rw [if_neg ha]
      exact ih _ h

lemma mem_nodeIdxsOf (nd : UaNode) (i : Nat) :
    i ∈ nodeIdxsOf nd ↔
      i = nd.nodeid.NamespaceIndex ∨ i = nd.browseName.NamespaceIndex ∨
        ∃ r ∈ nd.references, i = r.NodeId.NamespaceIndex := by
  unfold nodeIdxsOf
  rw [mem_dedupFold]
  simp only [List.not_mem_nil, false_or, List.mem_append, List.mem_cons,
    or_false, List.mem_map]
  constructor
  · rintro ((h | h) | ⟨r, hr, hre⟩)
    · exact Or.inl h
    · exact Or.inr (Or.inl h)
    · exact Or.inr (Or.inr ⟨r, hr, hre.symm⟩)
  · rintro (h | h | ⟨r, hr, hre⟩)
    · exact Or.inl (Or.inl h)
    · exact Or.inl (Or.inr h)
    · exact Or.inr ⟨r, hr, hre.symm⟩

lemma nodup_getNsIdxsOfNodes_aux (nodes : List UaNode) :
    ∀ acc : List Nat, acc.Nodup →
      (nodes.foldl
        (fun idxs node =>
          (nodeIdxsOf node).foldl
            (fun acc i => if i ≠ 0 ∧ i ∉ acc then acc ++ [i] else acc) idxs)
        acc).Nodup := by
  induction nodes with
  | nil => intro acc h; simpa using h
  | cons nd rest ih =>
    intro acc h
    simp only [List.foldl_cons]
    exact ih _ (nodup_nsAddFold _ _ h)

lemma mem_getNsIdxsOfNodes_aux (nodes : List UaNode) :
    ∀ (acc : List Nat) (i : Nat),
      i ∈ nodes.foldl
          (fun idxs node =>
            (nodeIdxsOf node).foldl
              (fun acc i => if i ≠ 0 ∧ i ∉ acc then acc ++ [i] else acc) idxs)
          acc ↔
        i ∈ acc ∨ (i ≠ 0 ∧ ∃ nd ∈ nodes, i ∈ nodeIdxsOf nd) := by
  induction nodes with
  | nil => intro acc i; simp
  | cons nd rest ih =>
    intro acc i
    simp only [List.foldl_cons]
    rw [ih, mem_nsAddFold]
    simp only [List.mem_cons]
    constructor
    · rintro ((h | h) | h)
      · exact Or.inl h
      · exact Or.inr ⟨h.2, nd, Or.inl rfl, h.1⟩
      · exact Or.inr ⟨h.1, h.2.imp fun x hx => ⟨Or.inr hx.1, hx.2⟩⟩
    · rintro (h | ⟨h0, x, hx | hx, hmem⟩)
      · exact Or.inl (Or.inl h)
      · exact Or.inl (Or.inr ⟨hx ▸ hmem, h0⟩)
      · exact Or.inr ⟨h0, x, hx, hmem⟩

/-- C2 (amended): the set harvested by _get_ns_idxs_of_nodes is the
union over all nodes of the namespace index of the NodeId, of the
browse name, and of every reference's TARGET id only (the
reference-type id is not harvested), with 0 excluded and no
duplicates. -/
theorem c2_get_ns_idxs_amended (nodes : List UaNode) :
    (∀ i : Nat, i ∈ getNsIdxsOfNodes nodes ↔
      i ≠ 0 ∧ ∃ nd ∈ nodes,
        (i = nd.nodeid.NamespaceIndex ∨ i = nd.browseName.NamespaceIndex ∨
          ∃ r ∈ nd.references, i = r.NodeId.NamespaceIndex))
    ∧ (getNsIdxsOfNodes nodes).Nodup := by
  constructor
  · intro i
    unfold getNsIdxsOfNodes
    rw [mem_getNsIdxsOfNodes_aux]
    simp only [List.not_mem_nil, false_or]
    constructor
    · rintro ⟨h0, nd, hnd, hmem⟩
      exact ⟨h0, nd, hnd, (mem_nodeIdxsOf nd i).mp hmem⟩
    · rintro ⟨h0, nd, hnd, hmem⟩
      exact ⟨h0, nd, hnd, (mem_nodeIdxsOf nd i).mpr hmem⟩
  · exact nodup_getNsIdxsOfNodes_aux nodes [] (by simp)

/-- C2 (counterexample): a node whose sole reference has a
reference-type id in namespace 5 but target id in namespace 0 harvests
nothing, while the claimed union contains 5. -/
theorem c2_counterexample :
    getNsIdxsOfNodes
        [⟨⟨0, 1⟩, ⟨0, "n"⟩, [⟨⟨5, 33⟩, ⟨0, 2⟩, true⟩]⟩] = []
    ∧ claimedHarvestIdxs
        [⟨⟨0, 1⟩, ⟨0, "n"⟩, [⟨⟨5, 33⟩, ⟨0, 2⟩, true⟩]⟩] = [5] :=
  ⟨rfl, rfl⟩

/-- C10: a NodeId (or QualifiedName) whose namespace index is not a
key of the export index map is serialized with its original index and
nothing is raised (the embedding is total); a mapped index is rewritten
on a copy — the functions consume the value and build a new record, the
argument itself is unchanged. -/
theorem c10_node_to_string_unmapped (idxMap : List (Nat × Nat)) (n : NodeId)
    (q : QualifiedName) :
    (dictLookup idxMap n.NamespaceIndex = none →
      nodeToString idxMap n = nodeIdToString n)
    ∧ (∀ j, dictLookup idxMap n.NamespaceIndex = some j →
        nodeToString idxMap n = nodeIdToString { n with NamespaceIndex := j })
    ∧ (dictLookup idxMap q.NamespaceIndex = none →
      bnameToString idxMap q = qnameToString q)
    ∧ (∀ j, dictLookup idxMap q.NamespaceIndex = some j →
        bnameToString idxMap q = qnameToString { q with NamespaceIndex := j }) := by
  refine ⟨fun h => ?_, fun j h => ?_, fun h => ?_, fun j h => ?_⟩ <;>
    simp [nodeToString, bnameToString, h]

/-- Witness for c10_node_to_string_unmapped: index 5 is not a key of
the map {2 maps-to 1}, so the string keeps namespace index 5. -/
theorem c10_node_to_string_unmapped_witness :
    dictLookup [(2, 1)] (5 : Nat) = (none : Option Nat)
    ∧ nodeToString [(2, 1)] ⟨5, 7⟩ = nodeIdToString ⟨5, 7⟩ :=
  ⟨rfl, (c10_node_to_string_unmapped [(2, 1)] ⟨5, 7⟩ ⟨0, "x"⟩).1 rfl⟩

/-- C6 (counterexample): a structure definition with a mandatory field
Name (String) and an optional field Value (Int32) produces a
Definition with TWO Field children; the optional member is emitted
(with IsOptional="true"), not omitted as the claim states. -/
theorem c6_counterexample :
    (datatypeDefinitionEl ⟨1, "T"⟩
        [⟨"Name", ⟨0, 12⟩, -1, [], false⟩,
         ⟨"Value", ⟨0, 6⟩, -1, [], true⟩]).children.map XmlEl.tag =
      ["Field", "Field"]
    ∧ ((datatypeDefinitionEl ⟨1, "T"⟩
        [⟨"Name", ⟨0, 12⟩, -1, [], false⟩,
         ⟨"Value", ⟨0, 6⟩, -1, [], true⟩]).children.getD 1 (mkEl "")).attrs =
      [("Name", "Value"), ("Datatype", "i=6"), ("IsOptional", "true")] :=
  ⟨rfl, rfl⟩

lemma structureFieldsToEtree_children (fields : List StructureField) :
    ∀ sdef_el : XmlEl,
      (structureFieldsToEtree sdef_el fields).children =
        sdef_el.children ++ fields.map structureFieldEl := by
  induction fields with
  | nil => intro el; simp [structureFieldsToEtree]
  | cons f rest ih =>
    intro el
    simp only [structureFieldsToEtree, List.foldl_cons, List.map_cons]
    rw [show List.foldl (fun el field => appendChild el (structureFieldEl field))
      (appendChild el (structureFieldEl f)) rest =
      structureFieldsToEtree (appendChild el (structureFieldEl f)) rest from rfl]
    rw [ih]
    simp [appendChild]

/-- C6 (amended): the Definition element for a structure definition
holds one Field child per definition member, in member order, and a
member is rendered with an IsOptional="true" attribute exactly when
it is optional — absent optional members are not omitted. -/
theorem c6_structure_fields_amended (bn : QualifiedName)
    (fields : List StructureField) (sdef_el : XmlEl) :
    (datatypeDefinitionEl bn fields).children = fields.map structureFieldEl
    ∧ (structureFieldsToEtree sdef_el fields).children =
        sdef_el.children ++ fields.map structureFieldEl
    ∧ ∀ f : StructureField,
        (("IsOptional", "true") ∈ (structureFieldEl f).attrs ↔
          f.IsOptional = true) := by
  refine ⟨?_, structureFieldsToEtree_children fields sdef_el, fun f => ?_⟩
  · rw [datatypeDefinitionEl, structureFieldsToEtree_children]; rfl
  · unfold structureFieldEl
    cases hopt : f.IsOptional <;> simp [List.mem_append, hopt]

/-- C7: the alias registry (a dict keyed by NodeId) holds at most one
name per id; re-registering an existing (id, name) pair changes
nothing; registering a different name for the same id overwrites; and
_add_alias_els emits exactly one Alias element per registered id, in
ascending NodeId order. -/
theorem c7_alias_registry (al : List (NodeId × String)) (k : NodeId)
    (v v' : String) (hnd : (al.map Prod.fst).Nodup) :
    ((k, v) ∈ al → dictInsert al k v = al)
    ∧ dictLookup (dictInsert al k v') k = some v'
    ∧ ((dictInsert al k v).map Prod.fst).Nodup
    ∧ (addAliasEls al).children.length = al.length
    ∧ (addAliasEls al).children.map XmlEl.text =
        (List.insertionSort nodeIdLe (al.map Prod.fst)).map
          (fun n => some (nodeIdToString n))
    ∧ List.Sorted nodeIdLe (List.insertionSort nodeIdLe (al.map Prod.fst))
    ∧ (List.insertionSort nodeIdLe (al.map Prod.fst)).Perm
        (al.map Prod.fst) := by
  refine ⟨fun hmem => dictInsert_of_mem_same al k v hnd hmem,
    dictLookup_dictInsert_self al k v', ?_, ?_, ?_,
    List.sorted_insertionSort _ _, List.perm_insertionSort _ _⟩
  · rw [keys_dictInsert]
    by_cases h : k ∈ al.map Prod.fst
    · simpa [h] using hnd
    · simp [h, List.nodup_append, hnd, List.disjoint_singleton]
  · have hlen := (List.perm_insertionSort nodeIdLe (al.map Prod.fst)).length_eq
    simp [addAliasEls, hlen]
  · simp [addAliasEls, List.map_map]

/-- Witness for c7_alias_registry on a two-entry registry. -/
theorem c7_alias_registry_witness :
    (([((NodeId.mk 1 5), "A"), ((NodeId.mk 0 3), "B")] : List (NodeId × String)).map
        Prod.fst).Nodup
    ∧ ((((NodeId.mk 1 5), "A") ∈ ([((NodeId.mk 1 5), "A"), ((NodeId.mk 0 3), "B")] :
          List (NodeId × String)) →
        dictInsert [((NodeId.mk 1 5), "A"), ((NodeId.mk 0 3), "B")] (NodeId.mk 1 5) "A" =
          [((NodeId.mk 1 5), "A"), ((NodeId.mk 0 3), "B")])
      ∧ dictLookup (dictInsert [((NodeId.mk 1 5), "A"), ((NodeId.mk 0 3), "B")] (NodeId.mk 1 5) "C")
          (NodeId.mk 1 5) = some "C"
      ∧ ((dictInsert [((NodeId.mk 1 5), "A"), ((NodeId.mk 0 3), "B")] (NodeId.mk 1 5) "A").map
          Prod.fst).Nodup
      ∧ (addAliasEls [((NodeId.mk 1 5), "A"), ((NodeId.mk 0 3), "B")]).children.length =
          ([((NodeId.mk 1 5), "A"), ((NodeId.mk 0 3), "B")] : List (NodeId × String)).length
      ∧ (addAliasEls [((NodeId.mk 1 5), "A"), ((NodeId.mk 0 3), "B")]).children.map XmlEl.text =
          (List.insertionSort nodeIdLe
            (([((NodeId.mk 1 5), "A"), ((NodeId.mk 0 3), "B")] : List (NodeId × String)).map
              Prod.fst)).map (fun n => some (nodeIdToString n))
      ∧ List.Sorted nodeIdLe
          (List.insertionSort nodeIdLe
            (([((NodeId.mk 1 5), "A"), ((NodeId.mk 0 3), "B")] : List (NodeId × String)).map
              Prod.fst))
      ∧ (List.insertionSort nodeIdLe
          (([((NodeId.mk 1 5), "A"), ((NodeId.mk 0 3), "B")] : List (NodeId × String)).map
            Prod.fst)).Perm
          (([((NodeId.mk 1 5), "A"), ((NodeId.mk 0 3), "B")] : List (NodeId × String)).map
            Prod.fst)) :=
  ⟨by decide,
    c7_alias_registry [((NodeId.mk 1 5), "A"), ((NodeId.mk 0 3), "B")] (NodeId.mk 1 5) "A" "C"
      (by decide)⟩

lemma refNameOf_congr (r₁ r₂ : Reference)
    (h : r₁.ReferenceTypeId = r₂.ReferenceTypeId) :
    refNameOf r₁ = refNameOf r₂ := by
  unfold refNameOf
  rw [h]

lemma addRefEls_fold (idxMap : List (Nat × Nat)) (refs : List Reference) :
    ∀ (el0 : XmlEl) (al0 : List (NodeId × String)),
      refs.foldl
        (fun (st : XmlEl × List (NodeId × String)) ref =>
          (appendChild st.1 (refElOf idxMap ref),
           dictInsert st.2 ref.ReferenceTypeId (refNameOf ref)))
        (el0, al0) =
      ({ el0 with children := el0.children ++ refs.map (refElOf idxMap) },
       refs.foldl (fun a r => dictInsert a r.ReferenceTypeId (refNameOf r))
         al0) := by
  induction refs with
  | nil => intro el0 al0; cases el0; simp
  | cons r rest ih =>
    intro el0 al0
    simp only [List.foldl_cons, List.map_cons]
    rw [ih]
    simp [appendChild]

lemma addRefEls_eq (al : List (NodeId × String)) (m : List (Nat × Nat))
    (p : XmlEl) (refs : List Reference) :
    addRefEls al m p refs =
      (appendChild p ⟨"References", [], none, refs.map (refElOf m)⟩,
       refs.foldl (fun a r => dictInsert a r.ReferenceTypeId (refNameOf r))
         al) := by
  unfold addRefEls
  rw [addRefEls_fold]
  simp [mkEl]

lemma aliasFold_keeps (refs : List Reference) :
    ∀ (al : List (NodeId × String)) (k : NodeId) (s : String),
      dictLookup al k = some s →
      (∀ r ∈ refs, r.ReferenceTypeId = k → refNameOf r = s) →
      dictLookup
        (refs.foldl (fun a r => dictInsert a r.ReferenceTypeId (refNameOf r))
          al) k = some s := by
  induction refs with
  | nil => intro al k s h _; simpa using h
  | cons r rest ih =>
    intro al k s h hcong
    simp only [List.foldl_cons]
    refine ih _ k s ?_ (fun r' hr' => hcong r' (by simp [hr']))
    by_cases hk : r.ReferenceTypeId = k
    · rw [← hk] at h ⊢
      rw [dictLookup_dictInsert_self, hcong r (by simp) hk]
    · rw [dictLookup_dictInsert_ne _ _ _ _ (fun he => hk he.symm)]
      exact h

lemma aliasFold_lookup (refs : List Reference) :
    ∀ (al : List (NodeId × String)) (ref : Reference), ref ∈ refs →
      dictLookup
        (refs.foldl (fun a r => dictInsert a r.ReferenceTypeId (refNameOf r))
          al) ref.ReferenceTypeId = some (refNameOf ref) := by
  induction refs with
  | nil => intro al ref h; simp at h
  | cons r rest ih =>
    intro al ref h
    simp only [List.foldl_cons]
    rcases List.mem_cons.mp h with h1 | h1
    · subst h1
      refine aliasFold_keeps rest _ _ _ (dictLookup_dictInsert_self _ _ _) ?_
      exact fun r' _ he => refNameOf_congr r' ref he
    · exact ih _ ref h1

/-- C3 (counterexample): with export index map {0 maps-to 0,
2 maps-to 1} and an unknown reference type ns=2;i=99, the emitted
ReferenceType attribute is the UNREMAPPED string "ns=2;i=99" (the
remapped form would be "ns=1;i=99"), and an alias for that id IS
registered. -/
theorem c3_counterexample :
    dictLookup objectIdNames 99 = none
    ∧ (refElOf [(0, 0), (2, 1)] ⟨⟨2, 99⟩, ⟨2, 5⟩, true⟩).attrs =
        [("ReferenceType", "ns=2;i=99")]
    ∧ nodeToString [(0, 0), (2, 1)] ⟨2, 99⟩ = "ns=1;i=99"
    ∧ ("ns=2;i=99" : String) ≠ "ns=1;i=99"
    ∧ dictLookup
        (addRefEls [] [(0, 0), (2, 1)] (mkEl "UAObject")
          [⟨⟨2, 99⟩, ⟨2, 5⟩, true⟩]).2 ⟨2, 99⟩ = some "ns=2;i=99" :=
  ⟨rfl, rfl, rfl, by decide, rfl⟩

/-- C3 (amended): _add_ref_els appends one References child holding
one Reference element per edge; for an edge whose reference-type
identifier is NOT in the static table, the ReferenceType attribute is
the reference-type NodeId string WITHOUT namespace remapping, and an
alias entry for that id IS registered (with the same unremapped
string); the element text is the remapped target NodeId string and
IsForward="false" appears exactly when the edge is inverse. -/
theorem c3_add_ref_els_amended (al : List (NodeId × String))
    (m : List (Nat × Nat)) (p : XmlEl) (refs : List Reference)
    (ref : Reference) (h : ref ∈ refs)
    (hu : dictLookup objectIdNames ref.ReferenceTypeId.Identifier = none) :
    (addRefEls al m p refs).1 =
      appendChild p ⟨"References", [], none, refs.map (refElOf m)⟩
    ∧ refElOf m ref =
        ⟨"Reference",
          [("ReferenceType", nodeIdToString ref.ReferenceTypeId)] ++
            (if ref.IsForward then [] else [("IsForward", "false")]),
          some (nodeToString m ref.NodeId), []⟩
    ∧ dictLookup (addRefEls al m p refs).2 ref.ReferenceTypeId =
        some (nodeIdToString ref.ReferenceTypeId) := by
  refine ⟨by rw [addRefEls_eq], ?_, ?_⟩
  · unfold refElOf refNameOf
    rw [hu]
  · rw [addRefEls_eq]
    have := aliasFold_lookup refs al ref h
    rwa [show refNameOf ref = nodeIdToString ref.ReferenceTypeId from by
      unfold refNameOf; rw [hu]] at this

/-- Witness for c3_add_ref_els_amended at the single unknown
reference-type edge of the counterexample. -/
theorem c3_add_ref_els_amended_witness :
    ((⟨⟨2, 99⟩, ⟨2, 5⟩, true⟩ : Reference) ∈
        [(⟨⟨2, 99⟩, ⟨2, 5⟩, true⟩ : Reference)]
      ∧ dictLookup objectIdNames
          (⟨⟨2, 99⟩, ⟨2, 5⟩, true⟩ : Reference).ReferenceTypeId.Identifier =
        none)
    ∧ ((addRefEls [] [(0, 0), (2, 1)] (mkEl "UAObject")
          [⟨⟨2, 99⟩, ⟨2, 5⟩, true⟩]).1 =
        appendChild (mkEl "UAObject")
          ⟨"References", [], none,
            [(⟨⟨2, 99⟩, ⟨2, 5⟩, true⟩ : Reference)].map
              (refElOf [(0, 0), (2, 1)])⟩
      ∧ refElOf [(0, 0), (2, 1)] ⟨⟨2, 99⟩, ⟨2, 5⟩, true⟩ =
          ⟨"Reference",
            [("ReferenceType",
              nodeIdToString
                (⟨⟨2, 99⟩, ⟨2, 5⟩, true⟩ : Reference).ReferenceTypeId)] ++
              (if (⟨⟨2, 99⟩, ⟨2, 5⟩, true⟩ : Reference).IsForward then []
               else [("IsForward", "false")]),
            some (nodeToString [(0, 0), (2, 1)]
              (⟨⟨2, 99⟩, ⟨2, 5⟩, true⟩ : Reference).NodeId), []⟩
      ∧ dictLookup
          (addRefEls [] [(0, 0), (2, 1)] (mkEl "UAObject")
            [⟨⟨2, 99⟩, ⟨2, 5⟩, true⟩]).2
          (⟨⟨2, 99⟩, ⟨2, 5⟩, true⟩ : Reference).ReferenceTypeId =
        some (nodeIdToString
          (⟨⟨2, 99⟩, ⟨2, 5⟩, true⟩ : Reference).ReferenceTypeId)) :=
  ⟨⟨by decide, rfl⟩,
    c3_add_ref_els_amended [] [(0, 0), (2, 1)] (mkEl "UAObject")
      [⟨⟨2, 99⟩, ⟨2, 5⟩, true⟩] ⟨⟨2, 99⟩, ⟨2, 5⟩, true⟩ (by decide) rfl⟩

lemma b64ValOf_b64CharOf_fin : ∀ m : Fin 64, b64ValOf (b64CharOf m.1) = m.1 := by
  decide

lemma b64CharOf_ne_pad_fin : ∀ m : Fin 64, b64CharOf m.1 ≠ '=' := by decide

lemma bval (n : Nat) (h : n < 64) : b64ValOf (b64CharOf n) = n :=
  b64ValOf_b64CharOf_fin ⟨n, h⟩

lemma b64CharOf_ne_pad (n : Nat) (h : n < 64) : b64CharOf n ≠ '=' :=
  b64CharOf_ne_pad_fin ⟨n, h⟩

lemma b64_roundtrip (bs : List Nat) (h : ∀ x ∈ bs, x < 256) :
    b64decode (b64encode bs) = bs := by
  induction bs using b64encode.induct with
  | case1 => rfl
  | case2 a =>
    have ha : a < 256 := h a (by simp)
    simp only [b64encode, b64decode, reduceIte]
    rw [bval _ (by omega), bval _ (by omega)]
    simp only [List.cons.injEq, and_true]
    omega
  | case3 a b =>
    have ha : a < 256 := h a (by simp)
    have hb : b < 256 := h b (by simp)
    simp only [b64encode, b64decode, reduceIte]
    rw [if_neg (b64CharOf_ne_pad _ (by omega))]
    rw [bval _ (by omega), bval _ (by omega), bval _ (by omega)]
    simp only [List.cons.injEq, and_true]
    constructor <;> omega
  | case4 a b c rest ih =>
    have ha : a < 256 := h a (by simp)
    have hb : b < 256 := h b (by simp)
    have hc : c < 256 := h c (by simp)
    simp only [b64encode, b64decode]
    rw [if_neg (b64CharOf_ne_pad _ (by omega))]
    rw [bval _ (by omega), bval _ (by omega), bval _ (by omega),
      bval _ (by omega)]
    rw [ih (fun x hx => h x (by simp [hx]))]
    simp only [List.cons.injEq, and_true]
    refine ⟨by omega, by omega, by omega⟩

/-- C8: the Boolean leaf of _val_to_etree writes exactly "true" for a
truthy value and "false" otherwise; the ByteString leaf writes the
standard base64 encoding of the bytes (decoding it recovers the
original bytes), and a None byte value is encoded as the base64 of
zero bytes (the empty string). -/
theorem c8_boolean_bytestring_leaf (res : NodeId → NodeId) (k : Nat)
    (el : XmlEl) (v : PyVal) (bs : List Nat) :
    (valToEtree res (k + 1) el (NodeId.mk 0 1) v).text =
        some (if pyTruthy v then "true" else "false")
    ∧ ((∀ x ∈ bs, x < 256) →
        (valToEtree res (k + 1) el (NodeId.mk 0 15) (.bytes bs)).text =
            some (String.mk (b64encode bs))
          ∧ b64decode (b64encode bs) = bs)
    ∧ (valToEtree res (k + 1) el (NodeId.mk 0 15) PyVal.none).text =
        some (String.mk (b64encode [])) := by
  refine ⟨?_, fun hbs => ⟨?_, b64_roundtrip bs hbs⟩, ?_⟩ <;>
    simp [valToEtree, codecStep, NodeId.mk.injEq]

/-- Witness for c8_boolean_bytestring_leaf on the bytes of "Man"
(whose base64 form is "TWFu"). -/
theorem c8_boolean_bytestring_leaf_witness :
    (∀ x ∈ [77, 97, 110], x < 256)
    ∧ ((valToEtree (fun n => n) 1 (mkEl "uax:ByteString") (NodeId.mk 0 15)
          (.bytes [77, 97, 110])).text =
        some (String.mk (b64encode [77, 97, 110]))
      ∧ b64decode (b64encode [77, 97, 110]) = [77, 97, 110]) :=
  ⟨by decide,
    (c8_boolean_bytestring_leaf (fun n => n) 0 (mkEl "uax:ByteString")
      (.bool true) [77, 97, 110]).2.1 (by decide)⟩

lemma extobjToEtree_append (res : NodeId → NodeId) (k : Nat) (el : XmlEl)
    (n : String) (d : NodeId) (v : PyVal) :
    extobjToEtree res k el n d v =
      { el with children :=
          el.children ++ (extobjToEtree res k (mkEl "") n d v).children } := by
  match k with
  | 0 => cases el; simp [extobjToEtree, codecStep, mkEl]
  | k + 1 => simp [extobjToEtree, codecStep, appendChild, mkEl]

lemma valueToEtree_append (res : NodeId → NodeId) (f : Nat) (el : XmlEl)
    (tn : String) (dt : NodeId) (v : PyVal) :
    valueToEtree res f el tn dt v =
      { el with children :=
          el.children ++ (valueToEtree res f (mkEl "") tn dt v).children } := by
  match f with
  | 0 => cases el; simp [valueToEtree, codecStep, mkEl]
  | k + 1 =>
    cases v <;>
      solve
      | (cases el; simp [valueToEtree, codecStep, mkEl])
      | simp [valueToEtree, codecStep, appendChild, mkEl]
      | (simp only [valueToEtree, codecStep]
         split <;> (try split) <;>
           solve
           | simp [appendChild, mkEl]
           | (rw [show ((codecStep res k).2.2.2 :
                  XmlEl → String → NodeId → PyVal → XmlEl) =
                extobjToEtree res k from rfl]
              rw [extobjToEtree_append]
              try simp [mkEl]))

lemma valueToEtree_list (res : NodeId → NodeId) (k : Nat) (el : XmlEl)
    (tn : String) (dt : NodeId) (xs : List PyVal) :
    valueToEtree res (k + 1) el tn dt (.list xs) =
      appendChild el
        (xs.foldl (fun acc nval => valueToEtree res k acc tn dt nval)
          (mkEl
            (if dt.NamespaceIndex = 0 ∧ dt.Identifier ≤ 21 then
              "uax:ListOf" ++ tn
            else "uax:ListOfExtensionObject"))) := rfl

lemma valueToEtree_foldl (res : NodeId → NodeId) (k : Nat) (tn : String)
    (dt : NodeId) (xs : List PyVal) :
    ∀ acc : XmlEl,
      xs.foldl (fun acc nval => valueToEtree res k acc tn dt nval) acc =
        { acc with children := acc.children ++
            (xs.flatMap
              (fun v => (valueToEtree res k (mkEl "") tn dt v).children)) } := by
  induction xs with
  | nil => intro acc; cases acc; simp
  | cons v rest ih =>
    intro acc
    simp only [List.foldl_cons, List.flatMap_cons]
    rw [valueToEtree_append, ih]
    simp

/-- C5: an array value produces one wrapper element appended to the
parent, tagged ListOf plus the declared type name when the declared
type is in namespace 0 with identifier at most 21 and
ListOfExtensionObject otherwise; its children are the encodings of
the array elements in original order (an element contributes the
children its own encoding appends, so an empty array yields an empty
wrapper). -/
theorem c5_array_wrapper (res : NodeId → NodeId) (k : Nat) (el : XmlEl)
    (type_name : String) (dtype : NodeId) (xs : List PyVal) :
    valueToEtree res (k + 1) el type_name dtype (.list xs) =
      appendChild el
        ⟨(if dtype.NamespaceIndex = 0 ∧ dtype.Identifier ≤ 21 then
            "uax:ListOf" ++ type_name
          else "uax:ListOfExtensionObject"), [], none,
          xs.flatMap
            (fun v =>
              (valueToEtree res k (mkEl "") type_name dtype v).children)⟩ := by
  rw [valueToEtree_list, valueToEtree_foldl]
  simp [mkEl]

/-- C1 (code evidence): _extobj_to_etree iterates val.ua_types in the
member order declared by the value and never consults the static
extobj_ordered_elements table (the _get_member_order call in the
source is commented out): an Argument value declared in the order
[Description, Name, DataType, ValueRank, ArrayDimensions] with
Description = None is emitted in exactly that order, the absent
Description member included, while the table order filtered to
non-None members (what the claim and the class docstring promise)
is [Name, DataType, ValueRank, ArrayDimensions]. -/
theorem c1_extobj_ignores_member_order :
    ((((extobjToEtree (fun n => n) 5 (mkEl "Value") "Argument"
        (NodeId.mk 0 296)
        (PyVal.struct
          [("Description", "LocalizedText"), ("Name", "String"),
           ("DataType", "NodeId"), ("ValueRank", "Int32"),
           ("ArrayDimensions", "ListOfUInt32")]
          [("Description", PyVal.none), ("Name", PyVal.str "in"),
           ("DataType", PyVal.nodeid (NodeId.mk 0 12)),
           ("ValueRank", PyVal.int (-1)),
           ("ArrayDimensions",
            PyVal.list [PyVal.int 2])])).children.getD 0
          (mkEl "")).children.getD 1 (mkEl "")).children.getD 0
        (mkEl "")).children.map XmlEl.tag =
      ["uax:Description", "uax:Name", "uax:DataType", "uax:ValueRank",
       "uax:ArrayDimensions"]
    ∧ getMemberOrder (NodeId.mk 0 296)
        (PyVal.struct
          [("Description", "LocalizedText"), ("Name", "String"),
           ("DataType", "NodeId"), ("ValueRank", "Int32"),
           ("ArrayDimensions", "ListOfUInt32")]
          [("Description", PyVal.none), ("Name", PyVal.str "in"),
           ("DataType", PyVal.nodeid (NodeId.mk 0 12)),
           ("ValueRank", PyVal.int (-1)),
           ("ArrayDimensions", PyVal.list [PyVal.int 2])]) =
        ["Name", "DataType", "ValueRank", "ArrayDimensions"] := by
  exact ⟨by decide, by decide⟩
